import Mathlib

/-
Verification of the AthenaK boundary-communication subsystem against its
specification.  The development shallowly embeds the relevant functions of
src/bvals/bvals.cpp, src/shearing_box/orbital_advection.cpp and
src/radiation_femn/radiation_femn_update.cpp:

* `Real` (double) arithmetic is modelled by exact rationals (ℚ);
* Kokkos views (multi-dimensional arrays) are modelled by total functions
  of integer indices;
* `TaskStatus` return values and the possibility that a step terminates the
  whole process via std::exit are modelled by `StepResult`;
* the sequential m/n loops over (mesh block, neighbor slot) pairs are
  modelled by left folds over the explicit list of loop iterations.
-/

namespace AthenaK

/-- TaskStatus values returned by every per-stage step operation
(athena.hpp, used by all four source files). -/
inductive TaskStatus where
  | complete
  | incomplete
  | fail
deriving DecidableEq, Repr

/-- Outcome of invoking a step: either it returns a `TaskStatus` to the task
scheduler, or it terminates the whole process (the std::exit(EXIT_FAILURE)
calls in orbital_advection.cpp and radiation_femn_update.cpp). -/
inductive StepResult where
  | ret (s : TaskStatus)
  | exited
deriving DecidableEq, Repr

/-- Boundary communication status flags (BoundaryCommStatus): `undef` until
first use, `waiting` once a receive is posted, `completed` on arrival. -/
inductive CommStatus where
  | undef
  | waiting
  | completed
deriving DecidableEq, Repr

/-! ## Orbital shift arithmetic

RecvAndUnpackCC_Orb (orbital_advection.cpp lines 216-240) computes, per
block `m` and x1-cell `i`:

  Real yshear  = -qom*x1v*dt;                            with qom = qshear*omega0
  int  joffset = static_cast<int>(yshear/(mbsize.d_view(m).dx2));
  Real epsi    = fmod(yshear,(mbsize.d_view(m).dx2))/(mbsize.d_view(m).dx2);
-/

/-- C/C++ conversion of a floating value to int: truncation toward zero
(`static_cast<int>` in orbital_advection.cpp line 222). -/
def castInt (q : ℚ) : ℤ := if 0 ≤ q then ⌊q⌋ else -⌊-q⌋

/-- C fmod: a - trunc(a/b)*b, so the result carries the sign of `a`
(orbital_advection.cpp line 240). -/
def fmodQ (a b : ℚ) : ℚ := a - (castInt (a / b) : ℚ) * b

/-- Shear distance `yshear = -qom*x1v*dt` with `qom = qshear*omega0`
(orbital_advection.cpp lines 205, 221). -/
def yshearOf (qshear omega0 x1v dt : ℚ) : ℚ := -(qshear * omega0) * x1v * dt

/-- Integer cell offset `joffset = static_cast<int>(yshear/dx2)`
(orbital_advection.cpp line 222). -/
def joffsetOf (ys dx2 : ℚ) : ℤ := castInt (ys / dx2)

/-- Fractional offset `epsi = fmod(yshear,dx2)/dx2`
(orbital_advection.cpp line 240). -/
def epsiOf (ys dx2 : ℚ) : ℚ := fmodQ ys dx2 / dx2

theorem castInt_of_nonneg {q : ℚ} (h : 0 ≤ q) : castInt q = ⌊q⌋ := if_pos h

theorem castInt_of_neg {q : ℚ} (h : q < 0) : castInt q = -⌊-q⌋ :=
  if_neg (not_le.mpr h)

theorem castInt_zero : castInt 0 = 0 := by
  simp [castInt]

/-- The fractional offset always lies strictly between -1 and 1 (it equals
`r - trunc r` for `r = ys/dx2`). -/
theorem epsiOf_eq_sub (ys dx2 : ℚ) (hdx : dx2 ≠ 0) :
    epsiOf ys dx2 = ys / dx2 - (castInt (ys / dx2) : ℚ) := by
  unfold epsiOf fmodQ
  field_simp
  ring

theorem epsiOf_bounds (ys dx2 : ℚ) (hdx : dx2 ≠ 0) :
    -1 < epsiOf ys dx2 ∧ epsiOf ys dx2 < 1 := by
  rw [epsiOf_eq_sub ys dx2 hdx]
  set r : ℚ := ys / dx2 with hr
  by_cases h : 0 ≤ r
  · rw [castInt_of_nonneg h]
    constructor
    · have := Int.sub_one_lt_floor r
      linarith [Int.floor_le r]
    · have := Int.sub_one_lt_floor r
      linarith
  · rw [castInt_of_neg (not_le.mp h)]
    have h1 : (⌊-r⌋ : ℚ) ≤ -r := Int.floor_le (-r)
    have h2 : -r - 1 < (⌊-r⌋ : ℚ) := Int.sub_one_lt_floor (-r)
    constructor
    · push_cast
      linarith
    · push_cast
      linarith

theorem joffsetOf_of_nonneg {ys dx2 : ℚ} (h : 0 ≤ ys / dx2) :
    joffsetOf ys dx2 = ⌊ys / dx2⌋ := castInt_of_nonneg h

theorem epsiOf_nonneg_of_nonneg {ys dx2 : ℚ} (hdx : dx2 ≠ 0) (h : 0 ≤ ys / dx2) :
    0 ≤ epsiOf ys dx2 := by
  rw [epsiOf_eq_sub ys dx2 hdx, castInt_of_nonneg h]
  have := Int.floor_le (ys / dx2)
  linarith

/-- Claim C1, counterexample: at qshear = omega0 = dt = dx2 = 1 and local
coordinate x1v = 3/2 the shift distance is -3/2; the integer offset computed
by RecvAndUnpackCC_Orb is -1 (truncation toward zero), not floor(-3/2) = -2,
and the fractional offset is -1/2, outside [0,1). -/
theorem C1_counterexample :
    joffsetOf (yshearOf 1 1 (3/2) 1) 1 ≠ ⌊yshearOf 1 1 (3/2) 1 / 1⌋ ∧
    ¬ (0 ≤ epsiOf (yshearOf 1 1 (3/2) 1) 1) := by
  have hy : yshearOf 1 1 (3/2) 1 = -(3/2) := by norm_num [yshearOf]
  rw [hy]
  have h1 : joffsetOf (-(3/2)) 1 = -1 := by
    rw [joffsetOf, show (-(3/2) : ℚ) / 1 = -(3/2) by norm_num,
      castInt_of_neg (by norm_num)]
    norm_num
  have h2 : ⌊(-(3/2) : ℚ) / 1⌋ = -2 := by norm_num
  have h3 : epsiOf (-(3/2)) 1 = -(1/2) := by
    rw [epsiOf_eq_sub _ _ one_ne_zero, show (-(3/2) : ℚ) / 1 = -(3/2) by norm_num,
      castInt_of_neg (by norm_num)]
    norm_num
  rw [h1, h2, h3]
  norm_num

/-- Claim C1 (amended): in RecvAndUnpackCC_Orb the shift distance equals
-(qshear*omega0 x local coordinate) x dt, the integer cell offset is the
truncation toward zero of shift/cell-width (static_cast to int), and the
fractional offset fmod(shift, width)/width lies in (-1,1); the claimed
floor and [0,1) relations hold exactly when the shift is nonnegative. -/
theorem C1_amended (qshear omega0 x1v dt dx2 : ℚ) (hdx : 0 < dx2) :
    yshearOf qshear omega0 x1v dt = -(qshear * omega0 * x1v) * dt ∧
    joffsetOf (yshearOf qshear omega0 x1v dt) dx2
      = castInt (yshearOf qshear omega0 x1v dt / dx2) ∧
    (-1 < epsiOf (yshearOf qshear omega0 x1v dt) dx2 ∧
      epsiOf (yshearOf qshear omega0 x1v dt) dx2 < 1) ∧
    (0 ≤ yshearOf qshear omega0 x1v dt →
      joffsetOf (yshearOf qshear omega0 x1v dt) dx2
        = ⌊yshearOf qshear omega0 x1v dt / dx2⌋ ∧
      0 ≤ epsiOf (yshearOf qshear omega0 x1v dt) dx2) := by
  refine ⟨by rw [yshearOf]; ring, rfl, epsiOf_bounds _ _ (ne_of_gt hdx), fun hys => ?_⟩
  have hr : 0 ≤ yshearOf qshear omega0 x1v dt / dx2 := div_nonneg hys (le_of_lt hdx)
  exact ⟨joffsetOf_of_nonneg hr, epsiOf_nonneg_of_nonneg (ne_of_gt hdx) hr⟩

/-- Claim C1 witness: the amended statement instantiated at
qshear = omega0 = dt = dx2 = 1 and x1v = -1 (a nonnegative shift). -/
theorem C1_amended_witness :
    joffsetOf (yshearOf 1 1 (-1) 1) 1 = castInt (yshearOf 1 1 (-1) 1 / 1) ∧
    (-1 < epsiOf (yshearOf 1 1 (-1) 1) 1 ∧ epsiOf (yshearOf 1 1 (-1) 1) 1 < 1) :=
  ⟨(C1_amended 1 1 (-1) 1 1 (by norm_num)).2.1,
   (C1_amended 1 1 (-1) 1 1 (by norm_num)).2.2.1⟩

/-! ## Orbital-advection pack and unpack (cell-centered)

PackAndSendCC_Orb packs only the two x2-face neighbor slots (nghbr indices 8
and 12).  On the same-rank path it writes directly into the destination
block's receive buffer:
  rbuf[dn].vars(dm,v,k-kl,j-jl,i-il) = a(m,v,k,j,i)
with kl = ks, il = is, and jl = js for the lower buffer (n = 0) and
jl = je-(ng+maxjshift-1) for the upper buffer (n = 1); the destination
buffer index is dn = (n+1) % 2 (orbital_advection.cpp lines 65-107).
Arrays are modelled as total functions (v, k, j, i) ↦ value.
-/

/-- Receive buffer produced by the same-rank direct-copy path of
PackAndSendCC_Orb, as a function of buffer coordinates: the slot (v,kb,jb,ib)
holds a(v, ks+kb, jl+jb, is+ib) of the sending block
(orbital_advection.cpp line 101). -/
def packBufCC (ks is_ jl : ℤ) (a : ℤ → ℤ → ℤ → ℤ → ℚ) : ℤ → ℤ → ℤ → ℤ → ℚ :=
  fun v kb jb ib => a v (ks + kb) (jl + jb) (is_ + ib)

/-- The integer-shift gather of RecvAndUnpackCC_Orb (orbital_advection.cpp
lines 225-236): element jj of the scratch row is loaded from the lower
receive buffer, the local array, or the upper receive buffer according to
the shifted index jj - joffset. -/
def gatherCC (js je maxjshift joffset ks is_ : ℤ)
    (rbuf0 rbuf1 u0 : ℤ → ℤ → ℤ → ℤ → ℚ) (v k i jj : ℤ) : ℚ :=
  if jj - joffset < js then
    rbuf0 v (k - ks) ((jj - joffset) + maxjshift) (i - is_)
  else if jj - joffset < je + 1 then
    u0 v k (jj - joffset) i
  else
    rbuf1 v (k - ks) ((jj - joffset) - (je + 1)) (i - is_)

/-- Modelled from the spec: DonorCellOrbAdvFlx (declared in
remap_fluxes.hpp, which is not part of the sample), the donor-cell
(piecewise-constant) reconstruction selected by ReconstructionMethod::dc.
The corrective flux at face j for fractional offset eps takes the upwind
cell value: eps*u(j-1) for positive eps, eps*u(j) otherwise. -/
def donorCellFlx (eps : ℚ) (u : ℤ → ℚ) (j : ℤ) : ℚ :=
  if 0 < eps then eps * u (j - 1) else eps * u j

/-- RecvAndUnpackCC_Orb unpack kernel with ReconstructionMethod::dc
(orbital_advection.cpp lines 210-261): for interior j the output is the
integer-shifted gather minus the difference of donor-cell corrective
fluxes, u0_(j) - (flx(j+1) - flx(j)); other cells are untouched.  The
shift yshear is a function of the x1 index i (the per-cell x1 coordinate);
joffset and epsi are derived from it as in the source. -/
def unpackCC_dc (js je maxjshift ks is_ : ℤ) (ysOf : ℤ → ℚ) (dx2 : ℚ)
    (rbuf0 rbuf1 u0 : ℤ → ℤ → ℤ → ℤ → ℚ) : ℤ → ℤ → ℤ → ℤ → ℚ :=
  fun v k j i =>
    if js ≤ j ∧ j ≤ je then
      gatherCC js je maxjshift (joffsetOf (ysOf i) dx2) ks is_ rbuf0 rbuf1 u0 v k i j
        - (donorCellFlx (epsiOf (ysOf i) dx2)
            (gatherCC js je maxjshift (joffsetOf (ysOf i) dx2) ks is_ rbuf0 rbuf1 u0 v k i)
            (j + 1)
          - donorCellFlx (epsiOf (ysOf i) dx2)
            (gatherCC js je maxjshift (joffsetOf (ysOf i) dx2) ks is_ rbuf0 rbuf1 u0 v k i)
            j)
    else u0 v k j i

/-- Claim C2: round-trip identity for the same-rank orbital-advection
exchange.  When the lower receive buffer was filled by the lower neighbor's
upper pack (jl = je-(ng+maxjshift-1)) and the upper receive buffer by the
upper neighbor's lower pack (jl = js), every cell that the gather of
RecvAndUnpackCC_Orb reads from a buffer receives exactly the sender's
value at the interior cell it was packed from, and that cell lies in the
sender's interior j-range [js,je]. -/
theorem C2_roundtrip (ks is_ js je ng maxjshift joffset : ℤ)
    (aA aC u0 : ℤ → ℤ → ℤ → ℤ → ℚ) (v k i jj : ℤ)
    (hng : 0 ≤ ng) (hms : 0 ≤ maxjshift) (hjs : js = ng)
    (hcap : js + ng + maxjshift ≤ je + 1) :
    (-maxjshift ≤ jj - joffset → jj - joffset < js →
      gatherCC js je maxjshift joffset ks is_
          (packBufCC ks is_ (je - (ng + maxjshift - 1)) aA)
          (packBufCC ks is_ js aC) u0 v k i jj
        = aA v k (je - ng + 1 + (jj - joffset)) i
      ∧ js ≤ je - ng + 1 + (jj - joffset)
      ∧ je - ng + 1 + (jj - joffset) ≤ je) ∧
    (je + 1 ≤ jj - joffset → jj - joffset ≤ je + ng + maxjshift →
      gatherCC js je maxjshift joffset ks is_
          (packBufCC ks is_ (je - (ng + maxjshift - 1)) aA)
          (packBufCC ks is_ js aC) u0 v k i jj
        = aC v k (js + (jj - joffset) - (je + 1)) i
      ∧ js ≤ js + (jj - joffset) - (je + 1)
      ∧ js + (jj - joffset) - (je + 1) ≤ je) := by
  constructor
  · intro h1 h2
    refine ⟨?_, by omega, by omega⟩
    simp only [gatherCC, packBufCC]
    rw [if_pos h2]
    ring_nf
  · intro h1 h2
    refine ⟨?_, by omega, by omega⟩
    simp only [gatherCC, packBufCC]
    rw [if_neg (by omega), if_neg (by omega)]
    ring_nf

/-- Claim C2 witness: the round-trip identity instantiated on an 8-cell
interior (ng = 2, js = 2, je = 9) with maxjshift = 1, zero integer offset,
reading ghost column jj = 1 from the lower buffer. -/
theorem C2_roundtrip_witness :
    gatherCC 2 9 1 0 0 0
        (packBufCC 0 0 (9 - (2 + 1 - 1)) (fun _ _ j _ => (j : ℚ)))
        (packBufCC 0 0 2 (fun _ _ j _ => (j : ℚ))) (fun _ _ _ _ => 0) 0 0 0 1
      = ((9 - 2 + 1 + (1 - 0) : ℤ) : ℚ)
    ∧ (2 : ℤ) ≤ 9 - 2 + 1 + (1 - 0) ∧ (9 - 2 + 1 + (1 - 0) : ℤ) ≤ 9 :=
  (C2_roundtrip 0 0 2 9 2 1 0 (fun _ _ j _ => (j : ℚ)) (fun _ _ j _ => (j : ℚ))
    (fun _ _ _ _ => 0) 0 0 0 1 (by omega) (by omega) rfl (by omega)).1
    (by omega) (by omega)

/-- Claim C7: donor-cell orbital remap with zero shift distance (hence zero
integer offset and zero fractional offset) is the identity: the output of
the RecvAndUnpackCC_Orb unpack kernel with ReconstructionMethod::dc equals
the input array at every variable and cell. -/
theorem C7_dc_zero_shift_identity (js je maxjshift ks is_ : ℤ) (dx2 : ℚ)
    (rbuf0 rbuf1 u0 : ℤ → ℤ → ℤ → ℤ → ℚ) (v k j i : ℤ) :
    unpackCC_dc js je maxjshift ks is_ (fun _ => 0) dx2 rbuf0 rbuf1 u0 v k j i
      = u0 v k j i := by
  have hj0 : joffsetOf 0 dx2 = 0 := by rw [joffsetOf, zero_div, castInt_zero]
  have he0 : epsiOf 0 dx2 = 0 := by
    rw [epsiOf, fmodQ, zero_div, castInt_zero]
    norm_num
  simp only [unpackCC_dc, hj0, he0, donorCellFlx, lt_self_iff_false, if_false,
    zero_mul, sub_zero, sub_self]
  by_cases h : js ≤ j ∧ j ≤ je
  · rw [if_pos h]
    simp only [gatherCC, sub_zero]
    rw [if_neg (by omega), if_pos (by omega)]
  · rw [if_neg h]

/-! ## Loop machinery for the (mesh block, neighbor slot) double loops

Every boundary-communication step iterates `for m in [0,nmb) for n in
[0,nnghbr)`; this is modelled as a left fold over the list of iterations.
-/

/-- The iteration list of the double loop over blocks m < nmb and neighbor
slots n < nnghbr, in source order. -/
def mnPairs (nmb nnghbr : ℕ) : List (ℕ × ℕ) :=
  (List.range nmb).flatMap fun m => (List.range nnghbr).map fun n => (m, n)

theorem mem_mnPairs {nmb nnghbr m n : ℕ} :
    (m, n) ∈ mnPairs nmb nnghbr ↔ m < nmb ∧ n < nnghbr := by
  simp [mnPairs]

theorem foldl_or_eq {β : Type} (f : β → Bool) :
    ∀ (l : List β) (b : Bool), l.foldl (fun acc x => acc || f x) b = (b || l.any f)
  | [], b => by simp
  | x :: l, b => by
    simp [List.foldl_cons, foldl_or_eq f l, Bool.or_assoc]

theorem foldl_and_eq {β : Type} (f : β → Bool) :
    ∀ (l : List β) (b : Bool), l.foldl (fun acc x => acc && f x) b = (b && l.all f)
  | [], b => by simp
  | x :: l, b => by
    simp [List.foldl_cons, foldl_and_eq f l, Bool.and_assoc]

/-! ## RecvAndUnpackCC_Orb completion gating (STEP 1)

orbital_advection.cpp lines 161-189: the loop calls MPI_Test on every
(block, slot) pair whose neighbor exists (`active`) and lives on a
different rank (`remote`); `done` is the completion flag MPI_Test reports
and `ok` is whether the MPI_Test call itself succeeded.  An MPI error makes
the function print and std::exit; otherwise, if any tested receive is
still pending the function returns incomplete without touching u0; only
when all have completed does STEP 2 (the unpack) run and write u0.
-/

/-- A pair that MPI_Test reports as still pending. -/
def pendAt (active remote done : ℕ → ℕ → Bool) (p : ℕ × ℕ) : Bool :=
  active p.1 p.2 && remote p.1 p.2 && !(done p.1 p.2)

/-- A pair whose MPI_Test call itself failed. -/
def errAt (active remote ok : ℕ → ℕ → Bool) (p : ℕ × ℕ) : Bool :=
  active p.1 p.2 && remote p.1 p.2 && !(ok p.1 p.2)

/-- RecvAndUnpackCC_Orb control flow (orbital_advection.cpp lines 161-264):
the fold over the m/n loop accumulates `bflag` (some receive pending) and
`no_errors`; an MPI error exits the process, a pending receive returns
incomplete leaving the array untouched, and otherwise the unpack kernel
(STEP 2, `unpack`) produces the new array. -/
def recvAndUnpackCC {α : Type} (nmb nnghbr : ℕ) (active remote done ok : ℕ → ℕ → Bool)
    (u0 : α) (unpack : α → α) : StepResult × α :=
  let ne := (mnPairs nmb nnghbr).foldl
    (fun b p => b && !(errAt active remote ok p)) true
  let bf := (mnPairs nmb nnghbr).foldl
    (fun b p => b || pendAt active remote done p) false
  if ne = false then (.exited, u0)
  else if bf = true then (.ret .incomplete, u0)
  else (.ret .complete, unpack u0)

/-- Claim C3: provided every MPI_Test call succeeds, RecvAndUnpackCC_Orb
returns incomplete and leaves u0 unchanged whenever some posted receive
from a different rank has not yet completed, and it performs the unpack
(returning complete with the unpacked array) exactly when every
outstanding receive has tested complete. -/
theorem C3_gating {α : Type} (nmb nnghbr : ℕ) (active remote done ok : ℕ → ℕ → Bool)
    (u0 : α) (unpack : α → α)
    (hok : ∀ p ∈ mnPairs nmb nnghbr, errAt active remote ok p = false) :
    ((∃ m, m < nmb ∧ ∃ n, n < nnghbr ∧
        active m n = true ∧ remote m n = true ∧ done m n = false) →
      recvAndUnpackCC nmb nnghbr active remote done ok u0 unpack
        = (.ret .incomplete, u0)) ∧
    ((∀ m, m < nmb → ∀ n, n < nnghbr →
        active m n = true → remote m n = true → done m n = true) →
      recvAndUnpackCC nmb nnghbr active remote done ok u0 unpack
        = (.ret .complete, unpack u0)) := by
  have hne : (mnPairs nmb nnghbr).foldl
      (fun b p => b && !(errAt active remote ok p)) true = true := by
    rw [foldl_and_eq, Bool.true_and, List.all_eq_true]
    intro p hp
    rw [hok p hp]
    rfl
  have hbf : (mnPairs nmb nnghbr).foldl
      (fun b p => b || pendAt active remote done p) false
      = (mnPairs nmb nnghbr).any (pendAt active remote done) := by
    rw [foldl_or_eq, Bool.false_or]
  constructor
  · rintro ⟨m, hm, n, hn, ha, hr, hd⟩
    have hpend : (mnPairs nmb nnghbr).any (pendAt active remote done) = true := by
      rw [List.any_eq_true]
      exact ⟨(m, n), mem_mnPairs.mpr ⟨hm, hn⟩, by simp [pendAt, ha, hr, hd]⟩
    simp only [recvAndUnpackCC, hne, hbf, hpend]
    simp
  · intro hall
    have hpend : (mnPairs nmb nnghbr).any (pendAt active remote done) = false := by
      rw [Bool.eq_false_iff]
      intro hcontra
      rw [List.any_eq_true] at hcontra
      obtain ⟨⟨m, n⟩, hp, hpd⟩ := hcontra
      obtain ⟨hm, hn⟩ := mem_mnPairs.mp hp
      simp only [pendAt, Bool.and_eq_true, Bool.not_eq_true'] at hpd
      exact absurd (hall m hm n hn hpd.1.1 hpd.1.2) (by simp [hpd.2])
    simp only [recvAndUnpackCC, hne, hbf, hpend]
    simp

/-- Claim C3 witness: a single block with a single remote neighbor whose
receive has not completed makes RecvAndUnpackCC_Orb return incomplete with
u0 (here the value 7) unchanged. -/
theorem C3_gating_witness :
    recvAndUnpackCC 1 1 (fun _ _ => true) (fun _ _ => true) (fun _ _ => false)
      (fun _ _ => true) (7 : ℚ) (fun x => x + 1) = (.ret .incomplete, 7) :=
  (C3_gating 1 1 (fun _ _ => true) (fun _ _ => true) (fun _ _ => false)
    (fun _ _ => true) (7 : ℚ) (fun x => x + 1)
    (by intro p hp; rfl)).1
    ⟨0, by omega, 0, by omega, rfl, rfl, rfl⟩

/-! ## BoundaryValues::InitRecv (bvals.cpp lines 214-260)

For every (block m, neighbor slot n) with a valid neighbor gid (>= 0), the
loop posts a non-blocking receive when the neighbor lives on a different
rank (`irecvOk m n` tells whether that MPI_Irecv registration succeeded)
and then unconditionally sets the receive status flag to waiting; slots
with gid < 0 are skipped entirely.  The function returns complete when no
registration failed and fail otherwise.
-/

/-- One iteration of the InitRecv loop body on the state
(status flags, no_errors accumulator). -/
def initRecvStep (gid : ℕ → ℕ → ℤ) (rank : ℕ → ℕ → ℕ) (myrank : ℕ)
    (irecvOk : ℕ → ℕ → Bool) (st : (ℕ → ℕ → CommStatus) × Bool) (p : ℕ × ℕ) :
    (ℕ → ℕ → CommStatus) × Bool :=
  if 0 ≤ gid p.1 p.2 then
    (fun m n => if m = p.1 ∧ n = p.2 then .waiting else st.1 m n,
     st.2 && (rank p.1 p.2 == myrank || irecvOk p.1 p.2))
  else st

/-- Whether the iteration at pair p avoids a registration error: slots with
no neighbor or a same-rank neighbor never err, remote slots err exactly
when the MPI_Irecv registration fails. -/
def regOk (gid : ℕ → ℕ → ℤ) (rank : ℕ → ℕ → ℕ) (myrank : ℕ)
    (irecvOk : ℕ → ℕ → Bool) (p : ℕ × ℕ) : Bool :=
  if 0 ≤ gid p.1 p.2 then rank p.1 p.2 == myrank || irecvOk p.1 p.2 else true

/-- BoundaryValues::InitRecv: fold the loop body over all (m,n) iterations
starting from the current status flags with no error seen, then return
complete or fail according to the accumulated no_errors. -/
def initRecv (nmb nnghbr : ℕ) (gid : ℕ → ℕ → ℤ) (rank : ℕ → ℕ → ℕ) (myrank : ℕ)
    (irecvOk : ℕ → ℕ → Bool) (stat0 : ℕ → ℕ → CommStatus) :
    (ℕ → ℕ → CommStatus) × TaskStatus :=
  let r := (mnPairs nmb nnghbr).foldl (initRecvStep gid rank myrank irecvOk) (stat0, true)
  (r.1, if r.2 = true then .complete else .fail)

theorem initRecv_fold_stat (gid : ℕ → ℕ → ℤ) (rank : ℕ → ℕ → ℕ) (myrank : ℕ)
    (irecvOk : ℕ → ℕ → Bool) :
    ∀ (l : List (ℕ × ℕ)) (acc : (ℕ → ℕ → CommStatus) × Bool) (m n : ℕ),
      (l.foldl (initRecvStep gid rank myrank irecvOk) acc).1 m n
        = if (m, n) ∈ l ∧ 0 ≤ gid m n then .waiting else acc.1 m n
  | [], acc, m, n => by simp
  | (pm, pn) :: l, acc, m, n => by
    rw [List.foldl_cons, initRecv_fold_stat gid rank myrank irecvOk l _ m n]
    by_cases hA : (m, n) ∈ l ∧ 0 ≤ gid m n
    · rw [if_pos hA, if_pos ⟨List.mem_cons_of_mem (pm, pn) hA.1, hA.2⟩]
    · rw [if_neg hA]
      by_cases hp : m = pm ∧ n = pn
      · obtain ⟨h1, h2⟩ := hp
        subst h1
        subst h2
        by_cases hg : 0 ≤ gid m n
        · simp only [initRecvStep, if_pos hg]
          simp [hg]
        · simp only [initRecvStep, if_neg hg]
          rw [if_neg (fun hc => hg hc.2)]
      · have hLHS : (initRecvStep gid rank myrank irecvOk acc (pm, pn)).1 m n
            = acc.1 m n := by
          by_cases hg : 0 ≤ gid pm pn
          · simp only [initRecvStep, if_pos hg]
            rw [if_neg hp]
          · simp only [initRecvStep, if_neg hg]
        rw [hLHS, if_neg ?_]
        rintro ⟨hmem, hgd⟩
        rcases List.mem_cons.mp hmem with h | h
        · exact hp ⟨congrArg Prod.fst h, congrArg Prod.snd h⟩
        · exact hA ⟨h, hgd⟩

theorem initRecv_fold_flag (gid : ℕ → ℕ → ℤ) (rank : ℕ → ℕ → ℕ) (myrank : ℕ)
    (irecvOk : ℕ → ℕ → Bool) :
    ∀ (l : List (ℕ × ℕ)) (acc : (ℕ → ℕ → CommStatus) × Bool),
      (l.foldl (initRecvStep gid rank myrank irecvOk) acc).2
        = (acc.2 && l.all (regOk gid rank myrank irecvOk))
  | [], acc => by simp
  | p :: l, acc => by
    rw [List.foldl_cons, initRecv_fold_flag gid rank myrank irecvOk l _]
    have hstep : (initRecvStep gid rank myrank irecvOk acc p).2
        = (acc.2 && regOk gid rank myrank irecvOk p) := by
      by_cases hg : 0 ≤ gid p.1 p.2
      · simp only [initRecvStep, regOk, if_pos hg]
      · simp only [initRecvStep, regOk, if_neg hg, Bool.and_true]
    rw [hstep, List.all_cons, Bool.and_assoc]

theorem regOk_false_iff (gid : ℕ → ℕ → ℤ) (rank : ℕ → ℕ → ℕ) (myrank : ℕ)
    (irecvOk : ℕ → ℕ → Bool) (m n : ℕ) :
    regOk gid rank myrank irecvOk (m, n) = false ↔
      0 ≤ gid m n ∧ rank m n ≠ myrank ∧ irecvOk m n = false := by
  simp only [regOk]
  by_cases hg : 0 ≤ gid m n
  · simp only [if_pos hg, Bool.or_eq_false_iff, beq_eq_false_iff_ne]
    tauto
  · simp [hg]

/-- Claim C4: InitRecv sets the receive status flag to waiting for every
(block, slot) pair in range whose neighbor gid is valid, regardless of
locality; slots with an invalid gid keep their previous status; and the
returned TaskStatus is fail exactly when some valid remote slot's receive
registration failed (complete otherwise). -/
theorem C4_initRecv (nmb nnghbr : ℕ) (gid : ℕ → ℕ → ℤ) (rank : ℕ → ℕ → ℕ)
    (myrank : ℕ) (irecvOk : ℕ → ℕ → Bool) (stat0 : ℕ → ℕ → CommStatus) :
    (∀ m, m < nmb → ∀ n, n < nnghbr → 0 ≤ gid m n →
      (initRecv nmb nnghbr gid rank myrank irecvOk stat0).1 m n = .waiting) ∧
    (∀ m n, gid m n < 0 →
      (initRecv nmb nnghbr gid rank myrank irecvOk stat0).1 m n = stat0 m n) ∧
    ((initRecv nmb nnghbr gid rank myrank irecvOk stat0).2 = .fail ↔
      ∃ m, m < nmb ∧ ∃ n, n < nnghbr ∧ 0 ≤ gid m n ∧ rank m n ≠ myrank ∧
        irecvOk m n = false) := by
  refine ⟨?_, ?_, ?_⟩
  · intro m hm n hn hg
    simp only [initRecv]
    rw [initRecv_fold_stat, if_pos ⟨mem_mnPairs.mpr ⟨hm, hn⟩, hg⟩]
  · intro m n hg
    simp only [initRecv]
    rw [initRecv_fold_stat, if_neg (fun hc => absurd hc.2 (not_le.mpr hg))]
  · simp only [initRecv]
    rw [initRecv_fold_flag, Bool.true_and]
    cases hb : (mnPairs nmb nnghbr).all (regOk gid rank myrank irecvOk) with
    | false =>
      simp only [Bool.false_eq_true, if_false]
      have hex : ∃ p ∈ mnPairs nmb nnghbr,
          ¬ regOk gid rank myrank irecvOk p = true := by
        by_contra hc
        push_neg at hc
        rw [← List.all_eq_true] at hc
        rw [hc] at hb
        exact absurd hb (by decide)
      obtain ⟨⟨m, n⟩, hp, hr⟩ := hex
      obtain ⟨hm, hn⟩ := mem_mnPairs.mp hp
      rw [Bool.not_eq_true] at hr
      obtain ⟨h1, h2, h3⟩ := (regOk_false_iff gid rank myrank irecvOk m n).mp hr
      simp only [true_iff]
      exact ⟨m, hm, n, hn, h1, h2, h3⟩
    | true =>
      simp only [if_true]
      constructor
      · intro hcontra
        cases hcontra
      · rintro ⟨m, hm, n, hn, h1, h2, h3⟩
        have hall := List.all_eq_true.mp hb (m, n) (mem_mnPairs.mpr ⟨hm, hn⟩)
        have hfalse := (regOk_false_iff gid rank myrank irecvOk m n).mpr ⟨h1, h2, h3⟩
        rw [hall] at hfalse
        exact absurd hfalse (by decide)

/-- Claim C4 witness: one block with one valid same-rank neighbor and a
succeeding registration; InitRecv marks the slot waiting. -/
theorem C4_initRecv_witness :
    (initRecv 1 1 (fun _ _ => 0) (fun _ _ => 0) 0 (fun _ _ => true)
      (fun _ _ => .undef)).1 0 0 = .waiting :=
  (C4_initRecv 1 1 (fun _ _ => 0) (fun _ _ => 0) 0 (fun _ _ => true)
    (fun _ _ => .undef)).1 0 (by omega) 0 (by omega) (by omega)

/-- Claim C10: even when InitRecv returns fail because some registration
failed, the receive status flags of all in-range slots with a valid
neighbor gid have nevertheless been set to waiting; the operation mutates
status state on its error path. -/
theorem C10_fail_still_waits (nmb nnghbr : ℕ) (gid : ℕ → ℕ → ℤ)
    (rank : ℕ → ℕ → ℕ) (myrank : ℕ) (irecvOk : ℕ → ℕ → Bool)
    (stat0 : ℕ → ℕ → CommStatus)
    (hfail : (initRecv nmb nnghbr gid rank myrank irecvOk stat0).2 = .fail) :
    ∀ m, m < nmb → ∀ n, n < nnghbr → 0 ≤ gid m n →
      (initRecv nmb nnghbr gid rank myrank irecvOk stat0).1 m n = .waiting := by
  intro m hm n hn hg
  simp only [initRecv]
  rw [initRecv_fold_stat, if_pos ⟨mem_mnPairs.mpr ⟨hm, hn⟩, hg⟩]

/-- Claim C10 witness: a single remote neighbor whose registration fails:
InitRecv returns fail, yet the slot's status is waiting. -/
theorem C10_fail_still_waits_witness :
    (initRecv 1 1 (fun _ _ => 0) (fun _ _ => 1) 0 (fun _ _ => false)
      (fun _ _ => .undef)).1 0 0 = .waiting :=
  C10_fail_still_waits 1 1 (fun _ _ => 0) (fun _ _ => 1) 0 (fun _ _ => false)
    (fun _ _ => .undef) (by decide) 0 (by omega) 0 (by omega) (le_refl 0)

/-! ## Transport-error surfacing (claim C6)

BoundaryValues::ClearSend (bvals.cpp lines 296-318) waits on every send of
an active remote slot and returns fail when any MPI_Wait errs, complete
otherwise; it never terminates the process.  The MPI phase of
ShearingBox::PackAndSendCC_Orb (orbital_advection.cpp lines 111-145)
instead prints a FATAL ERROR message and calls std::exit(EXIT_FAILURE)
when any MPI_Isend errs, and returns complete otherwise; it never returns
fail.
-/

/-- BoundaryValues::ClearSend: fold the wait loop, return fail on any error
and complete otherwise (never exits). -/
def clearSend (nmb nnghbr : ℕ) (active remote waitOk : ℕ → ℕ → Bool) : StepResult :=
  let ne := (mnPairs nmb nnghbr).foldl
    (fun b p => b && !(errAt active remote waitOk p)) true
  .ret (if ne = true then .complete else .fail)

/-- The iteration list of the PackAndSendCC_Orb send loop: blocks m < nmb,
x2-face neighbor slots n in [8, 12] stepping by 4. -/
def x2Pairs (nmb : ℕ) : List (ℕ × ℕ) :=
  (List.range nmb).flatMap fun m => [(m, 8), (m, 12)]

/-- The MPI send phase of ShearingBox::PackAndSendCC_Orb: on any send
registration error the process is terminated (std::exit); otherwise the
step returns complete. -/
def packSendCC_mpi (nmb : ℕ) (active remote sendOk : ℕ → ℕ → Bool) : StepResult :=
  let ne := (x2Pairs nmb).foldl
    (fun b p => b && !(errAt active remote sendOk p)) true
  if ne = true then .ret .complete else .exited

theorem mem_x2Pairs {nmb m n : ℕ} :
    (m, n) ∈ x2Pairs nmb ↔ m < nmb ∧ (n = 8 ∨ n = 12) := by
  simp only [x2Pairs, List.mem_flatMap, List.mem_range, List.mem_cons,
    List.mem_singleton, List.not_mem_nil, or_false, Prod.mk.injEq]
  constructor
  · rintro ⟨a, ha, ⟨h1, h2⟩ | ⟨h1, h2⟩⟩ <;> subst h1 <;> subst h2 <;> tauto
  · rintro ⟨hm, h | h⟩ <;> subst h <;> exact ⟨m, hm, by tauto⟩

theorem errAt_true_iff (active remote ok : ℕ → ℕ → Bool) (m n : ℕ) :
    errAt active remote ok (m, n) = true ↔
      active m n = true ∧ remote m n = true ∧ ok m n = false := by
  simp [errAt, and_assoc]

/-- Claim C6, counterexample: a failing MPI send in PackAndSendCC_Orb makes
the step terminate the process rather than surface a fail status. -/
theorem C6_counterexample :
    packSendCC_mpi 1 (fun _ _ => true) (fun _ _ => true) (fun _ _ => false)
      = StepResult.exited ∧
    packSendCC_mpi 1 (fun _ _ => true) (fun _ _ => true) (fun _ _ => false)
      ≠ StepResult.ret TaskStatus.fail := by decide

/-- Claim C6 (amended): transport errors detected by BoundaryValues
operations (here ClearSend) are surfaced as a fail return to the scheduler
without terminating the process (fail exactly when some wait on an active
remote slot errs); the orbital-advection send step instead terminates the
process on a transport error and never returns fail. -/
theorem C6_amended (nmb nnghbr : ℕ) (active remote waitOk sendOk : ℕ → ℕ → Bool) :
    (clearSend nmb nnghbr active remote waitOk ≠ .exited) ∧
    (clearSend nmb nnghbr active remote waitOk = .ret .fail ↔
      ∃ m, m < nmb ∧ ∃ n, n < nnghbr ∧ active m n = true ∧ remote m n = true ∧
        waitOk m n = false) ∧
    (packSendCC_mpi nmb active remote sendOk ≠ .ret .fail) ∧
    (packSendCC_mpi nmb active remote sendOk = .exited ↔
      ∃ m, m < nmb ∧ ∃ n, (n = 8 ∨ n = 12) ∧ active m n = true ∧
        remote m n = true ∧ sendOk m n = false) := by
  have hcs : clearSend nmb nnghbr active remote waitOk
      = .ret (if (mnPairs nmb nnghbr).all
            (fun p => !(errAt active remote waitOk p)) = true
          then .complete else .fail) := by
    simp only [clearSend]
    rw [foldl_and_eq, Bool.true_and]
  have hps : packSendCC_mpi nmb active remote sendOk
      = if (x2Pairs nmb).all (fun p => !(errAt active remote sendOk p)) = true
        then .ret .complete else .exited := by
    simp only [packSendCC_mpi]
    rw [foldl_and_eq, Bool.true_and]
  refine ⟨?_, ?_, ?_, ?_⟩
  · rw [hcs]
    exact fun h => StepResult.noConfusion h
  · rw [hcs]
    cases hall : (mnPairs nmb nnghbr).all (fun p => !(errAt active remote waitOk p)) with
    | true =>
      simp only [if_true]
      constructor
      · intro h
        cases (StepResult.ret.injEq _ _).mp h
      · rintro ⟨m, hm, n, hn, h1, h2, h3⟩
        have hcontra := (errAt_true_iff active remote waitOk m n).mpr ⟨h1, h2, h3⟩
        have hmem := List.all_eq_true.mp hall (m, n) (mem_mnPairs.mpr ⟨hm, hn⟩)
        rw [hcontra] at hmem
        exact absurd hmem (by decide)
    | false =>
      simp only [Bool.false_eq_true, if_false, true_iff]
      have hex : ∃ p ∈ mnPairs nmb nnghbr,
          ¬ (!(errAt active remote waitOk p)) = true := by
        by_contra hc
        push_neg at hc
        rw [← List.all_eq_true] at hc
        rw [hc] at hall
        exact absurd hall (by decide)
      obtain ⟨⟨m, n⟩, hp, hr⟩ := hex
      obtain ⟨hm, hn⟩ := mem_mnPairs.mp hp
      have hr' : errAt active remote waitOk (m, n) = true := by
        cases herr : errAt active remote waitOk (m, n)
        · rw [Bool.not_eq_true, herr] at hr
          exact absurd hr (by decide)
        · rfl
      obtain ⟨h1, h2, h3⟩ := (errAt_true_iff active remote waitOk m n).mp hr'
      exact ⟨m, hm, n, hn, h1, h2, h3⟩
  · rw [hps]
    cases hall : (x2Pairs nmb).all (fun p => !(errAt active remote sendOk p)) with
    | true =>
      simp only [if_true]
      intro h
      cases (StepResult.ret.injEq _ _).mp h
    | false =>
      simp only [Bool.false_eq_true, if_false]
      exact fun h => StepResult.noConfusion h
  · rw [hps]
    cases hall : (x2Pairs nmb).all (fun p => !(errAt active remote sendOk p)) with
    | true =>
      simp only [if_true]
      constructor
      · intro h
        cases h
      · rintro ⟨m, hm, n, hn, h1, h2, h3⟩
        have hcontra := (errAt_true_iff active remote sendOk m n).mpr ⟨h1, h2, h3⟩
        have := List.all_eq_true.mp hall (m, n) (mem_x2Pairs.mpr ⟨hm, hn⟩)
        rw [hcontra] at this
        exact absurd this (by decide)
    | false =>
      simp only [Bool.false_eq_true, if_false, true_iff]
      have hex : ∃ p ∈ x2Pairs nmb,
          ¬ (!(errAt active remote sendOk p)) = true := by
        by_contra hc
        push_neg at hc
        rw [← List.all_eq_true] at hc
        rw [hc] at hall
        exact absurd hall (by decide)
      obtain ⟨⟨m, n⟩, hp, hr⟩ := hex
      obtain ⟨hm, hn⟩ := mem_x2Pairs.mp hp
      have hr' : errAt active remote sendOk (m, n) = true := by
        cases herr : errAt active remote sendOk (m, n)
        · rw [Bool.not_eq_true, herr] at hr
          exact absurd hr (by decide)
        · rfl
      obtain ⟨h1, h2, h3⟩ := (errAt_true_iff active remote sendOk m n).mp hr'
      exact ⟨m, hm, n, hn, h1, h2, h3⟩

/-! ## NeighborIndexer slot layout (claim C5)

InitializeBuffers (bvals.cpp lines 100-204) addresses the 56 buffers of a
fully 3-D, fully refined topology through MeshBlock::NeighborIndx in the
fixed enumeration order x1-faces [0,7], x2-faces [8,15], x1x2-edges
[16,23], x3-faces [24,31], x3x1-edges [32,39], x2x3-edges [40,47],
corners [48,55]; faces carry two sub-face selectors, edges one, corners
none.
-/

/-- Modelled from the spec: MeshBlock::NeighborIndx (declared in
mesh/meshblock.hpp, which is not part of the sample).  Maps a direction
offset (i,j,k), components in -1..1, and up to two sub-face selectors f1,f2
to the slot index of the fixed enumeration order used by
InitializeBuffers: x1-faces then x2-faces, x1x2-edges, x3-faces,
x3x1-edges, x2x3-edges, corners, with consecutive sub-faces inside each
direction as the indx++ pattern of bvals.cpp lines 100-204 requires. -/
def NeighborIndx (i j k f1 f2 : ℤ) : ℤ :=
  if k = 0 then
    if j = 0 then 2 * (i + 1) + f1 + 2 * f2
    else if i = 0 then 8 + 2 * (j + 1) + f1 + 2 * f2
    else 16 + (i + 1) + 2 * (j + 1) + f1
  else if j = 0 then
    if i = 0 then 24 + 2 * (k + 1) + f1 + 2 * f2
    else 32 + (i + 1) + 2 * (k + 1) + f1
  else if i = 0 then 40 + (j + 1) + 2 * (k + 1) + f1
  else 48 + (i + 1) / 2 + (j + 1) + 2 * (k + 1)

/-- An input to the neighbor indexer: a direction offset encoded as
Fin 3 components (value minus one gives the offset in -1..1) and two
sub-face selectors. -/
structure NbrInput where
  di : Fin 3
  dj : Fin 3
  dk : Fin 3
  f1 : Fin 2
  f2 : Fin 2
deriving DecidableEq, Fintype

/-- Offset component encoded by a Fin 3 value. -/
def ofs (x : Fin 3) : ℤ := (x : ℤ) - 1

/-- Validity of an input for the fully 3-D, fully refined topology: faces
use both sub-face selectors, edges only the first, corners none (the
unused selectors are pinned to 0, matching the call sites in
InitializeBuffers). -/
def NbrInput.valid (p : NbrInput) : Prop :=
  (p.di ≠ 1 ∧ p.dj = 1 ∧ p.dk = 1) ∨
  (p.di = 1 ∧ p.dj ≠ 1 ∧ p.dk = 1) ∨
  (p.di = 1 ∧ p.dj = 1 ∧ p.dk ≠ 1) ∨
  (p.di ≠ 1 ∧ p.dj ≠ 1 ∧ p.dk = 1 ∧ p.f2 = 0) ∨
  (p.di ≠ 1 ∧ p.dj = 1 ∧ p.dk ≠ 1 ∧ p.f2 = 0) ∨
  (p.di = 1 ∧ p.dj ≠ 1 ∧ p.dk ≠ 1 ∧ p.f2 = 0) ∨
  (p.di ≠ 1 ∧ p.dj ≠ 1 ∧ p.dk ≠ 1 ∧ p.f1 = 0 ∧ p.f2 = 0)

instance (p : NbrInput) : Decidable p.valid := by
  unfold NbrInput.valid
  infer_instance

/-- The slot computed for an input. -/
def slotOf (p : NbrInput) : ℤ :=
  NeighborIndx (ofs p.di) (ofs p.dj) (ofs p.dk) (p.f1 : ℤ) (p.f2 : ℤ)

set_option maxRecDepth 40000 in
/-- Claim C5: on the fully 3-D, fully refined topology the neighbor slot
indexing is a bijection onto [0,56): no two distinct valid (offset,
sub-face) inputs share a slot, and every slot in [0,56) is reached by a
valid input. -/
theorem C5_bijection :
    (∀ p q : NbrInput, p.valid → q.valid → slotOf p = slotOf q → p = q) ∧
    (∀ s : Fin 56, ∃ p : NbrInput, p.valid ∧ slotOf p = (s : ℤ)) := by
  decide

/-- Claim C5 witness: slot 17 is reached by a valid input (the bijection
theorem applied at the concrete slot 17). -/
theorem C5_bijection_witness :
    ∃ p : NbrInput, p.valid ∧ slotOf p = ((⟨17, by omega⟩ : Fin 56) : ℤ) :=
  C5_bijection.2 ⟨17, by omega⟩

/-! ## Constrained-transport update of RecvAndUnpackFC_Orb (claim C8)

orbital_advection.cpp lines 538-564: after the effective EMFs emfx (x1e)
and emfz (x3e) are filled, the face fields are updated by discrete curls
(3-D case, multi_d and three_d true):

  b0.x1f(m,k,j,i) -= (emfz(m,k,j+1,i) - emfz(m,k,j,i))            over k in [ks,ke], j in [js,je], i in [is,ie+1]
  b0.x2f(m,k,j,i) += dx2/dx1*(emfz(m,k,j,i+1) - emfz(m,k,j,i))
                   - dx2/dx3*(emfx(m,k+1,j,i) - emfx(m,k,j,i))    over k in [ks,ke], j in [js,je+1], i in [is,ie]
  b0.x3f(m,k,j,i) += (emfx(m,k,j+1,i) - emfx(m,k,j,i))            over k in [ks,ke+1], j in [js,je], i in [is,ie]

Fields of one block are modelled as functions (k,j,i) ↦ value.
-/

/-- Face-centered field of one mesh block. -/
structure FaceFld where
  x1f : ℤ → ℤ → ℤ → ℚ
  x2f : ℤ → ℤ → ℤ → ℚ
  x3f : ℤ → ℤ → ℤ → ℚ

/-- The CT update of RecvAndUnpackFC_Orb, 3-D case: each field component is
modified on its update range by the corresponding EMF curl term and left
unchanged elsewhere. -/
def ctUpdate (is_ ie js je ks ke : ℤ) (dx1 dx2 dx3 : ℚ)
    (emfx emfz : ℤ → ℤ → ℤ → ℚ) (b : FaceFld) : FaceFld where
  x1f := fun k j i =>
    if ks ≤ k ∧ k ≤ ke ∧ js ≤ j ∧ j ≤ je ∧ is_ ≤ i ∧ i ≤ ie + 1 then
      b.x1f k j i - (emfz k (j + 1) i - emfz k j i)
    else b.x1f k j i
  x2f := fun k j i =>
    if ks ≤ k ∧ k ≤ ke ∧ js ≤ j ∧ j ≤ je + 1 ∧ is_ ≤ i ∧ i ≤ ie then
      b.x2f k j i + dx2 / dx1 * (emfz k j (i + 1) - emfz k j i)
        - dx2 / dx3 * (emfx (k + 1) j i - emfx k j i)
    else b.x2f k j i
  x3f := fun k j i =>
    if ks ≤ k ∧ k ≤ ke + 1 ∧ js ≤ j ∧ j ≤ je ∧ is_ ≤ i ∧ i ≤ ie then
      b.x3f k j i + (emfx k (j + 1) i - emfx k j i)
    else b.x3f k j i

/-- Discrete divergence of a face-centered field at cell (k,j,i). -/
def divB (dx1 dx2 dx3 : ℚ) (b : FaceFld) (k j i : ℤ) : ℚ :=
  (b.x1f k j (i + 1) - b.x1f k j i) / dx1
    + (b.x2f k (j + 1) i - b.x2f k j i) / dx2
    + (b.x3f (k + 1) j i - b.x3f k j i) / dx3

/-- Claim C8: at every interior cell the CT update of RecvAndUnpackFC_Orb
leaves the discrete divergence of the face-centered field unchanged, so an
initially divergence-free field stays divergence-free (exact arithmetic). -/
theorem C8_ct_divergence_free (is_ ie js je ks ke : ℤ) (dx1 dx2 dx3 : ℚ)
    (emfx emfz : ℤ → ℤ → ℤ → ℚ) (b : FaceFld) (k j i : ℤ)
    (hdx2 : dx2 ≠ 0)
    (hk : ks ≤ k ∧ k ≤ ke) (hj : js ≤ j ∧ j ≤ je) (hi : is_ ≤ i ∧ i ≤ ie) :
    divB dx1 dx2 dx3 (ctUpdate is_ ie js je ks ke dx1 dx2 dx3 emfx emfz b) k j i
      = divB dx1 dx2 dx3 b k j i ∧
    (divB dx1 dx2 dx3 b k j i = 0 →
      divB dx1 dx2 dx3 (ctUpdate is_ ie js je ks ke dx1 dx2 dx3 emfx emfz b) k j i
        = 0) := by
  obtain ⟨hk1, hk2⟩ := hk
  obtain ⟨hj1, hj2⟩ := hj
  obtain ⟨hi1, hi2⟩ := hi
  have hmain : divB dx1 dx2 dx3
      (ctUpdate is_ ie js je ks ke dx1 dx2 dx3 emfx emfz b) k j i
      = divB dx1 dx2 dx3 b k j i := by
    simp only [divB, ctUpdate]
    rw [if_pos (by omega), if_pos (by omega), if_pos (by omega), if_pos (by omega),
      if_pos (by omega), if_pos (by omega)]
    field_simp
    ring
  exact ⟨hmain, fun h0 => hmain.trans h0⟩

/-- Claim C8 witness: the preservation applied at a concrete configuration
(unit cell widths, index 0, the field b with x2f = k and the others zero is
divergence-free and stays so). -/
theorem C8_ct_divergence_free_witness :
    divB 1 1 1 (ctUpdate 0 0 0 0 0 0 1 1 1 (fun _ _ _ => 1) (fun _ _ _ => 1)
      (FaceFld.mk (fun _ _ _ => 0) (fun _ _ _ => 0) (fun _ _ _ => 0))) 0 0 0 = 0 :=
  (C8_ct_divergence_free 0 0 0 0 0 0 1 1 1 (fun _ _ _ => 1) (fun _ _ _ => 1)
    (FaceFld.mk (fun _ _ _ => 0) (fun _ _ _ => 0) (fun _ _ _ => 0)) 0 0 0
    (by norm_num) ⟨le_refl 0, le_refl 0⟩ ⟨le_refl 0, le_refl 0⟩
    ⟨le_refl 0, le_refl 0⟩).2
    (by simp [divB])

/-! ## RadiationFEMN::ExpRKUpdate (claim C9)

radiation_femn_update.cpp lines 74-451: the update kernel body, executed
for every (block, species-energy, k, j, i) iteration, unconditionally
prints debug output for the Ricci rotation coefficients and then calls
exit(EXIT_FAILURE) (line 451); the real update code and the final
`return TaskStatus::complete` (line 594) are unreachable whenever the
iteration space is nonempty.
-/

/-- RadiationFEMN::ExpRKUpdate control flow: the kernel iterates blocks
m < nmb, species-energy bins < nse, k in [ks,ke], j in [js,je], i in
[is,ie]; each iteration terminates the process, so the function only
returns (complete) when the iteration space is empty. -/
def expRKUpdate (nmb nse : ℕ) (ks ke js je is_ ie : ℤ) : StepResult :=
  if 0 < nmb ∧ 0 < nse ∧ ks ≤ ke ∧ js ≤ je ∧ is_ ≤ ie then .exited
  else .ret .complete

/-- Claim C9: on any real stage invocation (one block, one species-energy
bin, a nonempty 4x1x1 cell range) ExpRKUpdate terminates the process via
the debug exit(EXIT_FAILURE) instead of returning one of
complete/incomplete/fail to the task scheduler. -/
theorem C9_exprk_exits :
    expRKUpdate 1 1 0 0 0 0 0 3 = StepResult.exited ∧
    ∀ t : TaskStatus, expRKUpdate 1 1 0 0 0 0 0 3 ≠ StepResult.ret t := by
  constructor
  · decide
  · intro t
    cases t <;> decide

/-- Claim C6 witness: the amended statement applied at a concrete failing
wait: ClearSend surfaces the error as a fail return. -/
theorem C6_amended_witness :
    clearSend 1 1 (fun _ _ => true) (fun _ _ => true) (fun _ _ => false)
      = .ret .fail :=
  (C6_amended 1 1 (fun _ _ => true) (fun _ _ => true) (fun _ _ => false)
    (fun _ _ => false)).2.1.mpr ⟨0, by omega, 0, by omega, rfl, rfl, rfl⟩
